import Mathlib

/-!
Verification development for the Moxy interception proxy.

Part 1 embeds the pure request/response transformation functions of
`frontend/src/lib/requestTransform.ts` and the UI event handlers of the
Home tab (`handleInterceptToggle`, `handleForwardFlow`, the intercepted-flow
polling effect).

Part 2 models the interception synchronization engine (Capture Host,
Durable Flow Store, Command Poller) described in the specification; that
backend is not part of the frontend sources, so its definitions are
modelled from the spec and are marked as such.
-/

namespace Moxy

/-- JS `\s` (whitespace class), restricted to the ASCII range used by the
HTTP text the functions operate on. -/
def isJsSpace (c : Char) : Bool :=
  c = ' ' || c = '\t' || c = '\n' || c = '\r' || c = '\x0b' || c = '\x0c'

/-- JS `\w` word-character class: ASCII letters, digits and underscore. -/
def isWordChar (c : Char) : Bool :=
  c.isAlpha || c.isDigit || c = '_'

/-- Character class `[\d.]` used for the HTTP version in both regexes. -/
def isVersionChar (c : Char) : Bool :=
  c.isDigit || c = '.'

/-- Split a character list at every `\r\n` or bare `\n`, the separator of
`split(/\r?\n/)`. Never returns `[]`. -/
def splitCrlf : List Char → List (List Char)
  | [] => [[]]
  | '\r' :: '\n' :: rest => [] :: splitCrlf rest
  | '\n' :: rest => [] :: splitCrlf rest
  | c :: rest =>
      match splitCrlf rest with
      | [] => [[c]]
      | r :: rs => (c :: r) :: rs

/-- `rawRequest.split(/\r?\n/)` from requestTransform.ts. -/
def splitLines (s : String) : List String :=
  (splitCrlf s.toList).map String.mk

/-- JS `String.prototype.trim` on ASCII input. -/
def jsTrim (s : String) : String :=
  String.mk (((s.toList.dropWhile isJsSpace).reverse.dropWhile isJsSpace).reverse)

/-- JS `a || b` on strings: `b` when `a` is empty (falsy), else `a`. -/
def jsOr (a b : String) : String :=
  if a = "" then b else a

/-- Numeric value of a digit string, as computed by `parseInt(_, 10)` on an
all-digit match. -/
def natOfDigits (ds : List Char) : Nat :=
  ds.foldl (fun n c => n * 10 + (c.toNat - '0'.toNat)) 0

/-- Matcher for the request-line regex `^(\w+)\s+([^\s]+)\s+HTTP\/[\d.]+$`
of `parseRawRequest`: the line must consist of exactly a word token, a
non-space token and an `HTTP/`-version token separated by whitespace runs.
Returns the two capture groups (method, path). -/
def requestLineMatch (line : String) : Option (String × String) :=
  let cs := line.toList
  let (w, rest1) := cs.span isWordChar
  let (s1, rest2) := rest1.span isJsSpace
  let (p, rest3) := rest2.span (fun c => !isJsSpace c)
  let (s2, rest4) := rest3.span isJsSpace
  match rest4 with
  | 'H' :: 'T' :: 'T' :: 'P' :: '/' :: ds =>
      if w ≠ [] && s1 ≠ [] && p ≠ [] && s2 ≠ [] && ds ≠ [] &&
          ds.all isVersionChar then
        some (String.mk w, String.mk p)
      else none
  | _ => none

/-- Matcher for the status-line regex `^HTTP\/[\d.]+\s+(\d+)\s+(.*)$` of
`parseRawResponse`. Returns (status code, status text capture). -/
def statusLineMatch (line : String) : Option (Nat × String) :=
  match line.toList with
  | 'H' :: 'T' :: 'T' :: 'P' :: '/' :: rest =>
      let (vs, r1) := rest.span isVersionChar
      let (sp1, r2) := r1.span isJsSpace
      let (ds, r3) := r2.span Char.isDigit
      let (sp2, r4) := r3.span isJsSpace
      if vs ≠ [] && sp1 ≠ [] && ds ≠ [] && sp2 ≠ [] then
        some (natOfDigits ds, String.mk r4)
      else none
  | _ => none

/-- Split a header line at its first colon provided `indexOf(':') > 0`;
returns the lower-cased name and the trimmed value, as in the host-header
loop of `parseRawRequest`. -/
def colonSplitAux : List Char → Option (List Char × List Char)
  | [] => none
  | c :: rest =>
      if c = ':' then some ([], rest)
      else (colonSplitAux rest).map (fun ab => (c :: ab.1, ab.2))

/-- `line.indexOf(':')`-based header split of `parseRawRequest`:
`none` when there is no colon or the colon is at index 0. -/
def colonSplit (line : String) : Option (String × String) :=
  match colonSplitAux line.toList with
  | some (pre, post) =>
      if pre = [] then none
      else some (String.mk (pre.map Char.toLower), jsTrim (String.mk post))
  | none => none

/-- The host-header scan of `parseRawRequest`: walk the lines after the
request line, stop at the first blank (trimmed) line, return the trimmed
value of the first `Host:` header found, `""` otherwise. -/
def findHost : List String → String
  | [] => ""
  | l :: rest =>
      let line := jsTrim l
      if line = "" then ""
      else
        match colonSplit line with
        | some (name, value) => if name = "host" then value else findHost rest
        | none => findHost rest

/-- Result of `parseRawRequest`. -/
structure ParsedRequest where
  method : String
  path : String
  host : String
  deriving Repr, DecidableEq

/-- `parseRawRequest` from requestTransform.ts. -/
def parseRawRequest (rawRequest : String) : ParsedRequest :=
  if rawRequest = "" then ⟨"GET", "/", ""⟩
  else
    match splitLines rawRequest with
    | [] => ⟨"GET", "/", ""⟩
    | requestLine :: rest =>
        let m := requestLineMatch requestLine
        let method := match m with | some mp => mp.1 | none => "GET"
        let path := match m with | some mp => mp.2 | none => "/"
        ⟨method, path, findHost rest⟩

/-- Result of `parseRawResponse`. -/
structure ParsedResponse where
  status : Nat
  statusText : String
  deriving Repr, DecidableEq

/-- `parseRawResponse` from requestTransform.ts. -/
def parseRawResponse (rawResponse : String) : Option ParsedResponse :=
  if rawResponse = "" then none
  else
    match splitLines rawResponse with
    | [] => none
    | statusLine :: _ =>
        match statusLineMatch statusLine with
        | some st => some ⟨st.1, if st.2 = "" then "Unknown" else st.2⟩
        | none => none

/-- Backend request record as delivered by the API
(`HttpRequest` in frontend/src/lib/api.ts). `none` collapses the JS
`undefined`/`null` cases of the optional fields. -/
structure BackendRequest where
  id : Nat
  method : String
  url : String
  raw_request : Option String
  raw_response : Option String
  status_code : Option Nat
  timestamp : String
  flow_id : Option String
  deriving Repr, DecidableEq

/-- UI request record produced by `transformRequest`
(`HttpRequest` in frontend/src/data/demoData.ts). -/
structure UiRequest where
  id : String
  method : String
  host : String
  path : String
  raw : String
  status : Option Nat
  flow_id : Option String
  deriving Repr, DecidableEq

/-- `extractHost` from requestTransform.ts. The `new URL(url).hostname`
browser API is external to the repository, so it is passed in as `urlp`
(`none` models the constructor throwing); the manual
`^https?:\/\/([^\/]+)` fallback is embedded directly. -/
def extractHost (urlp : String → Option String) (url : String) : String :=
  match urlp url with
  | some h => h
  | none =>
      if url.startsWith "http://" then
        let h := (url.drop 7).toList.takeWhile (fun c => c ≠ '/')
        if h = [] then url else String.mk h
      else if url.startsWith "https://" then
        let h := (url.drop 8).toList.takeWhile (fun c => c ≠ '/')
        if h = [] then url else String.mk h
      else url

/-- `transformRequest` from requestTransform.ts, parameterized by the
external URL parser `urlp`. -/
def transformRequest (urlp : String → Option String)
    (b : BackendRequest) : UiRequest :=
  let parsed : ParsedRequest :=
    match b.raw_request with
    | some rr => if rr = "" then ⟨"GET", "/", ""⟩ else parseRawRequest rr
    | none => ⟨"GET", "/", ""⟩
  let method := jsOr parsed.method "GET"
  let path := jsOr parsed.path "/"
  let host := parsed.host
  let host := if host = "" then extractHost urlp b.url else host
  let status : Option Nat :=
    match b.status_code with
    | some c => some c
    | none =>
        match b.raw_response with
        | some rr =>
            if rr = "" then none else (parseRawResponse rr).map (·.status)
        | none => none
  { id := toString b.id
    method := jsOr method (jsOr b.method "GET")
    host := host
    path := jsOr path "/"
    raw := (b.raw_request).getD ""
    status := status
    flow_id := b.flow_id }

/-! ## UI event handlers of the Home tab (frontend source) -/

/-- The state-update logic of the `loadInterceptedFlowIds` polling effect in
the Home tab: on a successful `getInterceptedFlows` call the list becomes
`data.flow_ids || []` when intercept is still enabled and `[]` otherwise; on
an error the list is cleared only when intercept is disabled, so with
intercept enabled the previously displayed list is kept (the error goes to
`console.error` only). `fetched` is the API outcome (`.error` = request
failed, `.ok none` = missing `flow_ids` field). -/
def loadInterceptedFlowIds (interceptEnabled : Bool) (prev : List String)
    (fetched : Except Unit (Option (List String))) : List String :=
  match fetched with
  | .ok flowIds => if interceptEnabled then flowIds.getD [] else []
  | .error _ => if !interceptEnabled then [] else prev

/-- Outcome of `handleInterceptToggle` in the Home tab: `optimistic` is the
value `setInterceptEnabled` is called with before the API call, `final` the
value it holds after the handler (reverted to `!enabled` when
`setInterceptStatus` failed). -/
structure ToggleResult where
  optimistic : Bool
  final : Bool
  deriving Repr, DecidableEq

/-- `handleInterceptToggle` from the Home tab, with the success of the
`api.setInterceptStatus` call passed in as `setOk`. -/
def handleInterceptToggle (enabled : Bool) (setOk : Bool) : ToggleResult :=
  { optimistic := enabled
    final := if setOk then enabled else !enabled }

/-- The edited-request payload `handleForwardFlow` sends:
`editedRequests[flowId]`, i.e. the association of `flowId` in the
`editedRequests` map, absent when the flow was never edited. -/
def forwardPayload : List (String × String) → String → Option String
  | [], _ => none
  | (k, v) :: rest, fid => if k = fid then some v else forwardPayload rest fid

/-- The state-update logic of `handleForwardFlow` in the Home tab: on API
success the flow id is removed from `interceptedFlowIds`; on API failure the
list is left unchanged and an error toast is shown (second component). -/
def handleForwardFlowUI (ids : List String) (fid : String)
    (apiResult : Except String Unit) : List String × Bool :=
  match apiResult with
  | .ok _ => (ids.filter (fun id => id ≠ fid), false)
  | .error _ => (ids, true)

/-! ## The interception synchronization engine

The Capture Host, Durable Flow Store and Command Poller described in the
specification are backend components that are not among the frontend
sources; every definition in this section is modelled from the spec. -/

/-- Modelled from the spec (§3, backend not in the sources): the per-flow
state `CAPTURED → (PENDING_INTERCEPT) → RELEASED | DROPPED`. -/
inductive FlowState where
  | CAPTURED
  | PENDING_INTERCEPT
  | RELEASED
  | DROPPED
  deriving Repr, DecidableEq

/-- A state is terminal when it is `RELEASED` or `DROPPED`. -/
def FlowState.isTerminal : FlowState → Bool
  | .RELEASED => true
  | .DROPPED => true
  | _ => false

/-- Rank of a state along the monotonic lifecycle. -/
def FlowState.rank : FlowState → Nat
  | .CAPTURED => 0
  | .PENDING_INTERCEPT => 1
  | .RELEASED => 2
  | .DROPPED => 2

/-- Modelled from the spec (§3, backend not in the sources): the FlowRecord
of the Durable Flow Store. `forwardedBytes` is what was sent to the origin
(`none` until the flow is released; a dropped flow never contacts the
origin), `arrival` the capture order, `completedAt` the completion
timestamp. -/
structure FlowRecord where
  state : FlowState
  request : String
  forwardedBytes : Option String
  arrival : Nat
  completedAt : Option Nat
  deriving Repr, DecidableEq

/-- Modelled from the spec (§3, backend not in the sources): a
PendingCommand variant `{Forward(optional edited bytes), Drop}`. -/
inductive Command where
  | Forward (edited : Option String)
  | Drop
  deriving Repr, DecidableEq

/-- Modelled from the spec (§4.2, backend not in the sources): a stored
command with its single-use consumption mark. -/
structure PendingCommand where
  cmd : Command
  consumed : Bool
  deriving Repr, DecidableEq

/-- Modelled from the spec (§2/§4.2, backend not in the sources): the
Durable Flow Store, holding per-exchange records keyed by flow_id, the
pending commands and the intercept-mode flag. -/
structure Store where
  flows : List (String × FlowRecord)
  commands : List (String × PendingCommand)
  interceptMode : Bool
  deriving Repr, DecidableEq

/-- Flow lookup by flow_id (first match). -/
def lookupFlow : List (String × FlowRecord) → String → Option FlowRecord
  | [], _ => none
  | (k, r) :: rest, fid => if k = fid then some r else lookupFlow rest fid

/-- Replace the record of `fid` (first match) by `r`. -/
def setFlow : List (String × FlowRecord) → String → FlowRecord →
    List (String × FlowRecord)
  | [], _, _ => []
  | (k, x) :: rest, fid, r =>
      if k = fid then (k, r) :: rest else (k, x) :: setFlow rest fid r

/-- Command lookup by flow_id (first match). -/
def lookupCmd : List (String × PendingCommand) → String → Option PendingCommand
  | [], _ => none
  | (k, c) :: rest, fid => if k = fid then some c else lookupCmd rest fid

/-- Mark the command of `fid` consumed. -/
def markConsumed : List (String × PendingCommand) → String →
    List (String × PendingCommand)
  | [], _ => []
  | (k, c) :: rest, fid =>
      if k = fid then (k, { c with consumed := true }) :: rest
      else (k, c) :: markConsumed rest fid

/-- Modelled from the spec (§4.2, backend not in the sources):
`consumeCommand(flow_id) → cmd|none`, atomic read-and-mark-consumed — the
command is returned only when present and not yet consumed, and in the same
transaction its consumed mark is set. -/
def consumeCommand (s : Store) (fid : String) : Option Command × Store :=
  match lookupCmd s.commands fid with
  | some pc =>
      if pc.consumed then (none, s)
      else (some pc.cmd, { s with commands := markConsumed s.commands fid })
  | none => (none, s)

/-- Modelled from the spec (§4.2/§5, backend not in the sources):
`issueCommand(flow_id, cmd)` — exclusive per flow_id, a no-op while an
unconsumed command for the same flow_id is outstanding. -/
def issueCommand (s : Store) (fid : String) (c : Command) : Store :=
  match lookupCmd s.commands fid with
  | some pc =>
      if pc.consumed then
        { s with commands := (fid, ⟨c, false⟩) :: s.commands }
      else s
  | none => { s with commands := (fid, ⟨c, false⟩) :: s.commands }

/-- Modelled from the spec (§4.1, backend not in the sources): the framing
re-validation applied to edited bytes of a Forward command — the edited
request must start with a well-formed request line `METHOD PATH HTTP/x`. -/
def validFraming (edited : String) : Bool :=
  match splitLines edited with
  | [] => false
  | l :: _ => (requestLineMatch l).isSome

/-- Modelled from the spec (§4.1/§4.2/§7, backend not in the sources):
apply a Forward command at time `t`. Gated on the record's own state: for a
flow that is already terminal the command is a no-op (DuplicateCommand).
With edited bytes the framing is re-validated; a malformed edit is rejected
with an explicit error, leaving the store (and thus the BLOCKED flow)
unchanged. Otherwise the flow is marked RELEASED and the forwarded bytes
(the edit, or the unmodified captured request) reach the origin. -/
def applyForward (s : Store) (fid : String) (edited : Option String)
    (t : Nat) : Except String Unit × Store :=
  match lookupFlow s.flows fid with
  | none => (.error "unknown flow", s)
  | some r =>
      if r.state.isTerminal then (.ok (), s)
      else
        match edited with
        | none =>
            let r' := { r with state := FlowState.RELEASED,
                               forwardedBytes := some r.request,
                               completedAt := some t }
            (.ok (), { s with flows := setFlow s.flows fid r' })
        | some e =>
            if validFraming e then
              let r' := { r with state := FlowState.RELEASED,
                                 forwardedBytes := some e,
                                 completedAt := some t }
              (.ok (), { s with flows := setFlow s.flows fid r' })
            else (.error "malformed edited request", s)

/-- Modelled from the spec (§4.1, backend not in the sources): apply a Drop
command at time `t`. A no-op on a terminal flow; otherwise the flow is
marked DROPPED with a synthesized failure, the origin never contacted
(`forwardedBytes` stays as it was, i.e. `none`). -/
def applyDrop (s : Store) (fid : String) (t : Nat) :
    Except String Unit × Store :=
  match lookupFlow s.flows fid with
  | none => (.error "unknown flow", s)
  | some r =>
      if r.state.isTerminal then (.ok (), s)
      else
        let r' := { r with state := FlowState.DROPPED,
                           completedAt := some t }
        (.ok (), { s with flows := setFlow s.flows fid r' })

/-- Exchange outcome of the capture path: proceed to the origin, or stay
blocked awaiting a command. -/
inductive ExchangeOutcome where
  | proceed
  | blocked
  deriving Repr, DecidableEq

/-- Result of the headers-received hook: the exchange outcome and the log
lines emitted. -/
structure CaptureResult where
  outcome : ExchangeOutcome
  log : List String
  deriving Repr, DecidableEq

/-- Modelled from the spec (§4.1, backend not in the sources): the
headers-received hook of the Capture Host. `storeUp` is the reachability of
the Durable Flow Store when persisting: when it is down the exchange
fail-opens — it proceeds un-intercepted, the failure is logged and never
raised to the exchange (the hook is a total function returning an
`ExchangeOutcome`, never an error). Otherwise the flow is persisted as
CAPTURED, and as PENDING_INTERCEPT (blocked) when intercept mode is on; a
flow_id already present is left untouched. -/
def onHeaders (storeUp : Bool) (s : Store) (fid req : String) :
    CaptureResult × Store :=
  if !storeUp then
    (⟨.proceed, ["store unreachable while persisting: failing open"]⟩, s)
  else
    match lookupFlow s.flows fid with
    | some _ => (⟨.proceed, []⟩, s)
    | none =>
        let st := if s.interceptMode then FlowState.PENDING_INTERCEPT
                  else FlowState.CAPTURED
        let out := if s.interceptMode then ExchangeOutcome.blocked
                   else ExchangeOutcome.proceed
        let newFlows := s.flows ++ [(fid, ⟨st, req, none, s.flows.length, none⟩)]
        (⟨out, []⟩, { s with flows := newFlows })

/-- Modelled from the spec (§4.2, backend not in the sources):
`setInterceptMode`, last-writer-wins. -/
def setInterceptMode (s : Store) (b : Bool) : Store :=
  { s with interceptMode := b }

/-- Modelled from the spec (§4.2, backend not in the sources):
`listPending() → ordered flow_ids`, the flow_ids currently in
PENDING_INTERCEPT. -/
def listPending (s : Store) : List String :=
  (s.flows.filter (fun kr => kr.2.state = .PENDING_INTERCEPT)).map (·.1)

/-- Modelled from the spec (§4.1/§4.3, backend not in the sources): the
disable-triggered bulk release. Every PENDING_INTERCEPT flow is released as
an implicit Forward with no edits — the unmodified captured request is
forwarded — processed in ascending arrival order: the flow of arrival `a`
completes at instant `t + a`. -/
def releaseOne (t : Nat) (r : FlowRecord) : FlowRecord :=
  if r.state = .PENDING_INTERCEPT then
    { r with state := FlowState.RELEASED,
             forwardedBytes := some r.request,
             completedAt := some (t + r.arrival) }
  else r

/-- The bulk release applied to the whole flow table. -/
def releaseFlows (t : Nat) (flows : List (String × FlowRecord)) :
    List (String × FlowRecord) :=
  flows.map (fun kr => (kr.1, releaseOne t kr.2))

/-- Modelled from the spec (§4.3, backend not in the sources): one tick of
the Command Poller at time `t`. It reads InterceptMode; when the mode is
false it synthesizes the bulk Forward for all blocked flow_ids. (Command
consumption and application are modelled by `consumeCommand`,
`applyForward` and `applyDrop`.) -/
def pollerTick (t : Nat) (s : Store) : Store :=
  if s.interceptMode then s
  else { s with flows := releaseFlows t s.flows }

/-- Modelled from the spec (backend not in the sources): the operations the
two processes can perform against the Durable Flow Store, as a step
language over `Store`. -/
inductive Step where
  | capture (storeUp : Bool) (fid req : String)
  | forward (fid : String) (edited : Option String) (t : Nat)
  | drop (fid : String) (t : Nat)
  | issue (fid : String) (c : Command)
  | consume (fid : String)
  | setMode (b : Bool)
  | tick (t : Nat)
  deriving Repr

/-- Effect of one step on the store. -/
def applyStep (s : Store) : Step → Store
  | .capture up fid req => (onHeaders up s fid req).2
  | .forward fid e t => (applyForward s fid e t).2
  | .drop fid t => (applyDrop s fid t).2
  | .issue fid c => issueCommand s fid c
  | .consume fid => (consumeCommand s fid).2
  | .setMode b => setInterceptMode s b
  | .tick t => pollerTick t s

/-- Run a trace of steps. -/
def runSteps (s : Store) (steps : List Step) : Store :=
  steps.foldl applyStep s

/-- State of a flow in a store, if present. -/
def stateOf (s : Store) (fid : String) : Option FlowState :=
  (lookupFlow s.flows fid).map (·.state)

/-- Lifecycle rank of a flow in a store (0 when absent). -/
def rankOf (s : Store) (fid : String) : Nat :=
  match lookupFlow s.flows fid with
  | none => 0
  | some r => r.state.rank

/-- A sample store used by witnesses: one already-released `GET /a` flow
and one unconsumed Forward command for it. -/
def sampleTerminalStore : Store :=
  ⟨[("f1", ⟨.RELEASED, "GET /a HTTP/1.1", some "GET /a HTTP/1.1", 0, some 3⟩)],
   [("f1", ⟨.Forward none, false⟩)], true⟩

/-- A sample store used by witnesses: one pending `GET /a` flow. -/
def samplePendingStore : Store :=
  ⟨[("f1", ⟨.PENDING_INTERCEPT, "GET /a HTTP/1.1\r\nHost: example.com\r\n\r\n",
      none, 0, none⟩)], [], true⟩

/-- A sample store used by witnesses: two pending flows captured in the
order `a` (arrival 0) then `b` (arrival 1), intercept mode on. -/
def sampleTwoPendingStore : Store :=
  ⟨[("a", ⟨.PENDING_INTERCEPT, "GET /a HTTP/1.1", none, 0, none⟩),
    ("b", ⟨.PENDING_INTERCEPT, "GET /b HTTP/1.1", none, 1, none⟩)], [], true⟩

/-! ## Spec-side definitions used for refinement statements -/

/-- The displayed status as the claim describes it: the record's
`status_code` whenever present, otherwise the integer status parsed from
the first line of `raw_response` when that line matches `HTTP/x NNN text`,
otherwise no status. -/
def displayedStatusSpec (b : BackendRequest) : Option Nat :=
  match b.status_code with
  | some c => some c
  | none =>
      match b.raw_response with
      | some rr => (statusLineMatch ((splitLines rr).headD "")).map (·.1)
      | none => none

/-- Whether a `Host` header (a line whose lower-cased name before the first
colon is `host`) occurs before the first blank line, scanning exactly the
lines the host loop of `parseRawRequest` scans. -/
def hasHostHeader : List String → Bool
  | [] => false
  | l :: rest =>
      let line := jsTrim l
      if line = "" then false
      else
        match colonSplit line with
        | some nv => if nv.1 = "host" then true else hasHostHeader rest
        | none => hasHostHeader rest

/-! ## Helper lemmas -/

theorem findHost_eq_empty_of_no_host (ls : List String)
    (h : hasHostHeader ls = false) : findHost ls = "" := by
  induction ls with
  | nil => rfl
  | cons l rest ih =>
      unfold hasHostHeader at h
      unfold findHost
      simp only at h ⊢
      by_cases hline : jsTrim l = ""
      · simp [hline]
      · simp only [hline, if_neg, if_false] at h ⊢
        cases hcs : colonSplit (jsTrim l) with
        | none =>
            simp [hcs] at h ⊢
            exact ih h
        | some nv =>
            simp [hcs] at h ⊢
            by_cases hname : nv.1 = "host"
            · simp [hname] at h
            · simp [hname] at h ⊢
              exact ih h

/-! ## Claim theorems: frontend transformations and handlers -/

/-- C8: for every backend request record, `transformRequest` computes the
displayed status as: the record's `status_code` whenever it is neither
undefined nor null; otherwise the integer status parsed from the first line
of `raw_response` by `parseRawResponse` when that line matches
`HTTP/x NNN text`; otherwise no status. -/
theorem spec2proof_C8 (urlp : String → Option String) (b : BackendRequest) :
    (transformRequest urlp b).status = displayedStatusSpec b := by
  unfold transformRequest displayedStatusSpec
  cases hc : b.status_code with
  | some c => simp
  | none =>
    cases hr : b.raw_response with
    | none => simp
    | some rr =>
      by_cases hrr : rr = ""
      · subst hrr
        simp
        decide
      · simp only [hrr, if_neg, if_false, parseRawResponse]
        cases hsl : splitLines rr with
        | nil =>
            simp [hsl]
            decide
        | cons l rest =>
          simp [hsl]
          cases hm : statusLineMatch l <;> simp [hm]

/-- C9: `parseRawRequest` is a total function over arbitrary input strings
(it is a Lean `def`, hence never throws): when the first line does not
match `METHOD PATH HTTP/x` it returns method `GET` and path `/`; when no
Host header precedes the first blank line it returns host `""`; and in that
case `transformRequest` falls back to the host extracted from the record's
`url` field. -/
theorem spec2proof_C9 :
    (∀ raw : String, requestLineMatch ((splitLines raw).headD "") = none →
      (parseRawRequest raw).method = "GET" ∧ (parseRawRequest raw).path = "/") ∧
    (∀ raw : String, hasHostHeader (splitLines raw).tail = false →
      (parseRawRequest raw).host = "") ∧
    (∀ (urlp : String → Option String) (b : BackendRequest) (raw : String),
      b.raw_request = some raw → (parseRawRequest raw).host = "" →
      (transformRequest urlp b).host = extractHost urlp b.url) := by
  refine ⟨?_, ?_, ?_⟩
  · intro raw h
    by_cases hraw : raw = ""
    · subst hraw
      exact ⟨rfl, rfl⟩
    · unfold parseRawRequest
      simp only [hraw, if_neg, if_false]
      cases hsl : splitLines raw with
      | nil => exact ⟨rfl, rfl⟩
      | cons l rest =>
          rw [hsl] at h
          simp at h
          simp [h]
  · intro raw h
    by_cases hraw : raw = ""
    · subst hraw
      rfl
    · unfold parseRawRequest
      simp only [hraw, if_neg, if_false]
      cases hsl : splitLines raw with
      | nil => rfl
      | cons l rest =>
          rw [hsl] at h
          simp at h
          simp [findHost_eq_empty_of_no_host rest h]
  · intro urlp b raw hb hhost
    unfold transformRequest
    rw [hb]
    by_cases hraw : raw = ""
    · subst hraw
      simp
    · simp only [hraw, if_neg, if_false, hhost]
      simp [hhost]

/-- C9 witness: the theorem applied at concrete inputs — a first line that
is not a request line, a raw request with no Host header, and the URL
fallback for such a request. -/
theorem spec2proof_C9_witness :
    (parseRawRequest "junkline\nHost: h").method = "GET" ∧
    (parseRawRequest "GET /a HTTP/1.1\nX-Other: y").host = "" ∧
    (transformRequest (fun _ => some "api.example.com")
      ⟨7, "GET", "https://api.example.com/a", some "GET /a HTTP/1.1\nX-Other: y",
        none, none, "2026-01-10", none⟩).host = "api.example.com" := by
  refine ⟨(spec2proof_C9.1 "junkline\nHost: h" (by decide)).1,
          spec2proof_C9.2.1 "GET /a HTTP/1.1\nX-Other: y" (by decide),
          ?_⟩
  have h := spec2proof_C9.2.2 (fun _ => some "api.example.com")
    ⟨7, "GET", "https://api.example.com/a", some "GET /a HTTP/1.1\nX-Other: y",
      none, none, "2026-01-10", none⟩
    "GET /a HTTP/1.1\nX-Other: y" rfl (by decide)
  rw [h]
  rfl

/-- C10: toggling intercept mode from the control surface updates the UI
state optimistically (`setInterceptEnabled(enabled)` before the API call),
and when `setInterceptStatus` fails `interceptEnabled` is reverted to its
value before the toggle (the negation of the requested value, which the
Switch always passes), so the displayed mode is unchanged on error. -/
theorem spec2proof_C10 (prev enabled setOk : Bool) :
    (handleInterceptToggle enabled setOk).optimistic = enabled ∧
    (setOk = false → prev = !enabled →
      (handleInterceptToggle enabled setOk).final = prev) := by
  refine ⟨rfl, ?_⟩
  intro h hp
  subst h
  subst hp
  simp [handleInterceptToggle]

/-- C10 witness: a failing disable attempt while intercept was enabled
reverts the displayed mode to enabled. -/
theorem spec2proof_C10_witness :
    (handleInterceptToggle false false).optimistic = false ∧
    (handleInterceptToggle false false).final = true :=
  ⟨(spec2proof_C10 true false false).1,
   (spec2proof_C10 true false false).2 rfl (by decide)⟩

/-- C6 counterexample: with intercept enabled and an empty previously
displayed list, a store failure (`getInterceptedFlows` rejecting) and a
successful reply reporting no pending flows produce the same empty pending
list shown to the tester — the two conditions do collapse, refuting the
claim at this concrete input. -/
theorem spec2proof_C6_counterexample :
    loadInterceptedFlowIds true [] (.error ()) =
      loadInterceptedFlowIds true [] (.ok (some [])) ∧
    loadInterceptedFlowIds true [] (.error ()) = ([] : List String) :=
  ⟨rfl, rfl⟩

/-- C6 (amended): with intercept enabled, a store failure keeps the
previously displayed pending list (the error is only logged to the
console), while a successful query displays exactly the returned flow ids;
hence "store unreachable" is distinguishable from "no pending flows" only
when the previously displayed list was nonempty, and the two collapse to
the same empty list whenever it was empty. -/
theorem spec2proof_C6 (prev ids : List String) :
    loadInterceptedFlowIds true prev (.error ()) = prev ∧
    loadInterceptedFlowIds true prev (.ok (some ids)) = ids :=
  ⟨rfl, rfl⟩

/-! ## Helper lemmas about the store tables -/

theorem lookupCmd_markConsumed (cmds : List (String × PendingCommand))
    (fid : String) :
    lookupCmd (markConsumed cmds fid) fid =
      (lookupCmd cmds fid).map (fun c => { c with consumed := true }) := by
  induction cmds with
  | nil => rfl
  | cons hd tl ih =>
      obtain ⟨k, c⟩ := hd
      by_cases h : k = fid
      · simp [markConsumed, lookupCmd, h]
      · simp [markConsumed, lookupCmd, h, ih]

theorem lookupFlow_setFlow (flows : List (String × FlowRecord))
    (fid : String) (x : FlowRecord) (fid2 : String) :
    lookupFlow (setFlow flows fid x) fid2 =
      if fid2 = fid then (lookupFlow flows fid).map (fun _ => x)
      else lookupFlow flows fid2 := by
  induction flows with
  | nil => simp [setFlow, lookupFlow]
  | cons hd tl ih =>
      obtain ⟨k, y⟩ := hd
      by_cases hk : k = fid
      · subst hk
        by_cases h2 : fid2 = k
        · subst h2
          simp [setFlow, lookupFlow]
        · have hk2 : k ≠ fid2 := fun h => h2 h.symm
          simp [setFlow, lookupFlow, h2, hk2]
      · by_cases h2 : fid2 = fid
        · subst h2
          have hk2 : k ≠ fid2 := fun h => hk h
          simp [setFlow, lookupFlow, hk, hk2, ih]
        · by_cases h3 : k = fid2
          · subst h3
            simp [setFlow, lookupFlow, hk, h2]
          · simp [setFlow, lookupFlow, hk, h2, h3, ih]

theorem lookupFlow_append_left (flows l : List (String × FlowRecord))
    (fid : String) (r : FlowRecord) (h : lookupFlow flows fid = some r) :
    lookupFlow (flows ++ l) fid = some r := by
  induction flows with
  | nil => simp [lookupFlow] at h
  | cons hd tl ih =>
      obtain ⟨k, y⟩ := hd
      by_cases hk : k = fid
      · simp [lookupFlow, hk] at h ⊢
        exact h
      · simp [lookupFlow, hk] at h ⊢
        exact ih h

theorem lookupFlow_releaseFlows (t : Nat)
    (flows : List (String × FlowRecord)) (fid : String) :
    lookupFlow (releaseFlows t flows) fid =
      (lookupFlow flows fid).map (releaseOne t) := by
  induction flows with
  | nil => rfl
  | cons hd tl ih =>
      obtain ⟨k, y⟩ := hd
      by_cases hk : k = fid
      · simp [releaseFlows, lookupFlow, hk]
      · simp [releaseFlows, lookupFlow, hk] at ih ⊢
        exact ih

theorem lookupFlow_mem (flows : List (String × FlowRecord))
    (fid : String) (r : FlowRecord) (h : lookupFlow flows fid = some r) :
    (fid, r) ∈ flows := by
  induction flows with
  | nil => simp [lookupFlow] at h
  | cons hd tl ih =>
      obtain ⟨k, y⟩ := hd
      by_cases hk : k = fid
      · subst hk
        simp [lookupFlow] at h
        simp [h]
      · simp [lookupFlow, hk] at h
        exact List.mem_cons_of_mem _ (ih h)

theorem pending_mem_listPending (s : Store) (fid : String) (r : FlowRecord)
    (h : lookupFlow s.flows fid = some r)
    (hp : r.state = .PENDING_INTERCEPT) : fid ∈ listPending s := by
  unfold listPending
  exact List.mem_map.mpr ⟨(fid, r),
    List.mem_filter.mpr ⟨lookupFlow_mem _ _ _ h, by simp [hp]⟩, rfl⟩

/-! ## Claim theorems: the interception synchronization engine -/

/-- C1: command consumption is at-most-once. `consumeCommand` atomically
reads and marks the command consumed, so a second invocation for the same
flow_id returns nothing; and a forward or drop command applied to a flow
whose record is already terminal (RELEASED or DROPPED) is a no-op that
leaves the store — hence the record — unchanged, which also covers
duplicate delivery after a poller restart, since the consumed mark and the
flow state live in the durable store. -/
theorem spec2proof_C1 (s : Store) (fid : String) :
    (∀ c, (consumeCommand s fid).1 = some c →
      lookupCmd (consumeCommand s fid).2.commands fid = some ⟨c, true⟩ ∧
      (consumeCommand (consumeCommand s fid).2 fid).1 = none) ∧
    (∀ r e t, lookupFlow s.flows fid = some r → r.state.isTerminal = true →
      applyForward s fid e t = (.ok (), s)) ∧
    (∀ r t, lookupFlow s.flows fid = some r → r.state.isTerminal = true →
      applyDrop s fid t = (.ok (), s)) := by
  refine ⟨?_, ?_, ?_⟩
  · intro c hc
    unfold consumeCommand at hc ⊢
    cases hcmd : lookupCmd s.commands fid with
    | none => simp [hcmd] at hc
    | some pc =>
        simp [hcmd] at hc
        by_cases hcons : pc.consumed
        · simp [hcons] at hc
        · simp [hcons] at hc
          simp [hcmd, hcons, lookupCmd_markConsumed, hc]
  · intro r e t hr ht
    unfold applyForward
    simp [hr, ht]
  · intro r t hr ht
    unfold applyDrop
    simp [hr, ht]

/-- C1 witness: in a store holding one unconsumed Forward command and one
already-RELEASED flow, the first consumption returns the command and marks
it consumed, the second returns nothing, and a forward applied to the
terminal flow leaves the store unchanged. -/
theorem spec2proof_C1_witness :
    (consumeCommand sampleTerminalStore "f1").1 = some (.Forward none) ∧
    (consumeCommand (consumeCommand sampleTerminalStore "f1").2 "f1").1 = none ∧
    applyForward sampleTerminalStore "f1" none 9 = (.ok (), sampleTerminalStore) := by
  refine ⟨by decide, ?_, ?_⟩
  · exact ((spec2proof_C1 sampleTerminalStore "f1").1 (.Forward none) (by decide)).2
  · exact (spec2proof_C1 sampleTerminalStore "f1").2.1
      ⟨.RELEASED, "GET /a HTTP/1.1", some "GET /a HTTP/1.1", 0, some 3⟩
      none 9 (by decide) (by decide)

/-- C4: fail-open on store failure. When the Durable Flow Store is
unreachable while persisting (`storeUp = false`), the headers-received hook
lets the exchange proceed un-intercepted, leaves the store untouched, and
logs the failure instead of raising it — `onHeaders` is a total function
whose result carries no error channel toward the exchange, so the capture
process cannot crash from a store failure. -/
theorem spec2proof_C4 (s : Store) (fid req : String) :
    (onHeaders false s fid req).1.outcome = .proceed ∧
    (onHeaders false s fid req).2 = s ∧
    (onHeaders false s fid req).1.log ≠ [] := by
  refine ⟨rfl, rfl, ?_⟩
  simp [onHeaders]

/-- C5: a Forward command carrying malformed edited bytes is rejected: the
apply returns an explicit error, the store is unchanged, the flow is still
BLOCKED (still listed by `listPending`) with its record intact, and since
the store is unchanged nothing was forwarded — in particular the unedited
original is not silently forwarded. On the control surface,
`handleForwardFlow` keeps the flow in `interceptedFlowIds` and surfaces an
error toast when the forward call fails. -/
theorem spec2proof_C5 (s : Store) (fid : String) (r : FlowRecord)
    (e : String) (t : Nat) (ids : List String) (msg : String)
    (hr : lookupFlow s.flows fid = some r)
    (hp : r.state = .PENDING_INTERCEPT)
    (hv : validFraming e = false) :
    (applyForward s fid (some e) t).1 = .error "malformed edited request" ∧
    (applyForward s fid (some e) t).2 = s ∧
    fid ∈ listPending (applyForward s fid (some e) t).2 ∧
    lookupFlow (applyForward s fid (some e) t).2.flows fid = some r ∧
    (handleForwardFlowUI ids fid (.error msg)).1 = ids ∧
    (handleForwardFlowUI ids fid (.error msg)).2 = true := by
  have hterm : r.state.isTerminal = false := by
    rw [hp]
    rfl
  have happ : applyForward s fid (some e) t = (.error "malformed edited request", s) := by
    unfold applyForward
    simp [hr, hterm, hv]
  refine ⟨by rw [happ], by rw [happ], ?_, ?_, rfl, rfl⟩
  · rw [happ]
    exact pending_mem_listPending s fid r hr hp
  · rw [happ]
    exact hr

/-- C5 witness: a pending flow and an edited request whose first line is
not a valid request line. -/
theorem spec2proof_C5_witness :
    (applyForward samplePendingStore "f1" (some "garbage") 5).1 =
      .error "malformed edited request" ∧
    "f1" ∈ listPending (applyForward samplePendingStore "f1" (some "garbage") 5).2 ∧
    (handleForwardFlowUI ["f1"] "f1" (.error "malformed edited request")).1 = ["f1"] := by
  have h := spec2proof_C5 samplePendingStore "f1"
    ⟨.PENDING_INTERCEPT, "GET /a HTTP/1.1\r\nHost: example.com\r\n\r\n", none, 0, none⟩
    "garbage" 5 ["f1"] "malformed edited request" (by decide) rfl (by decide)
  exact ⟨h.1, h.2.2.1, h.2.2.2.2.1⟩

/-- C7: forwarding a pending flow with no edited bytes. The payload the UI
sends is `editedRequests[flowId]`, which is absent for an unedited flow, so
the Forward command carries no edited request; applying it succeeds, the
flow's state becomes RELEASED, and the origin receives exactly the captured
request bytes, unmodified. -/
theorem spec2proof_C7 (edits : List (String × String)) (s : Store)
    (fid : String) (r : FlowRecord) (t : Nat)
    (hpayload : forwardPayload edits fid = none)
    (hr : lookupFlow s.flows fid = some r)
    (hp : r.state = .PENDING_INTERCEPT) :
    (applyForward s fid (forwardPayload edits fid) t).1 = .ok () ∧
    lookupFlow (applyForward s fid (forwardPayload edits fid) t).2.flows fid =
      some { r with state := FlowState.RELEASED,
                    forwardedBytes := some r.request,
                    completedAt := some t } := by
  have hterm : r.state.isTerminal = false := by
    rw [hp]
    rfl
  rw [hpayload]
  unfold applyForward
  simp [hr, hterm, lookupFlow_setFlow]

/-- C7 witness: a captured `GET /a` flow, pending and unedited, is released
with the original bytes forwarded verbatim. -/
theorem spec2proof_C7_witness :
    (applyForward samplePendingStore "f1"
        (forwardPayload [("other", "edit")] "f1") 5).1 = .ok () ∧
    lookupFlow (applyForward samplePendingStore "f1"
        (forwardPayload [("other", "edit")] "f1") 5).2.flows "f1" =
      some ⟨.RELEASED, "GET /a HTTP/1.1\r\nHost: example.com\r\n\r\n",
            some "GET /a HTTP/1.1\r\nHost: example.com\r\n\r\n", 0, some 5⟩ :=
  spec2proof_C7 [("other", "edit")] samplePendingStore "f1"
    ⟨.PENDING_INTERCEPT, "GET /a HTTP/1.1\r\nHost: example.com\r\n\r\n",
        none, 0, none⟩ 5 (by decide) (by decide) rfl

/-- C3: when intercept mode flips from true to false, the next poller tick
(one poll interval) releases every flow then pending as an implicit bulk
Forward with no edits — the record becomes RELEASED with the unmodified
captured request as the forwarded bytes — and the releases are processed in
ascending arrival order (the flow of arrival `a` completes at `t + a`), so
completion timestamps are non-decreasing in capture order. -/
theorem spec2proof_C3 (s : Store) (t : Nat) :
    (∀ fid r, lookupFlow s.flows fid = some r →
      r.state = .PENDING_INTERCEPT →
      lookupFlow (pollerTick t (setInterceptMode s false)).flows fid =
        some { r with state := FlowState.RELEASED,
                      forwardedBytes := some r.request,
                      completedAt := some (t + r.arrival) }) ∧
    (∀ fid1 fid2 r1 r2,
      lookupFlow s.flows fid1 = some r1 →
      lookupFlow s.flows fid2 = some r2 →
      r1.state = .PENDING_INTERCEPT → r2.state = .PENDING_INTERCEPT →
      r1.arrival ≤ r2.arrival →
      ∃ c1 c2,
        (lookupFlow (pollerTick t (setInterceptMode s false)).flows fid1).bind
          (·.completedAt) = some c1 ∧
        (lookupFlow (pollerTick t (setInterceptMode s false)).flows fid2).bind
          (·.completedAt) = some c2 ∧
        c1 ≤ c2) := by
  have hbase : ∀ fid r, lookupFlow s.flows fid = some r →
      r.state = .PENDING_INTERCEPT →
      lookupFlow (pollerTick t (setInterceptMode s false)).flows fid =
        some { r with state := FlowState.RELEASED,
                      forwardedBytes := some r.request,
                      completedAt := some (t + r.arrival) } := by
    intro fid r hr hp
    unfold pollerTick setInterceptMode
    simp [lookupFlow_releaseFlows, hr, releaseOne, hp]
  refine ⟨hbase, ?_⟩
  intro fid1 fid2 r1 r2 h1 h2 hp1 hp2 harr
  refine ⟨t + r1.arrival, t + r2.arrival, ?_, ?_, Nat.add_le_add_left harr t⟩
  · rw [hbase fid1 r1 h1 hp1]
    rfl
  · rw [hbase fid2 r2 h2 hp2]
    rfl

/-- C3 witness: with flows `a` (arrival 0) and `b` (arrival 1) pending,
disabling intercept and ticking at time 4 releases `a` unmodified with
completion time 4, and both completion times exist in capture order. -/
theorem spec2proof_C3_witness :
    lookupFlow (pollerTick 4 (setInterceptMode sampleTwoPendingStore false)).flows "a" =
      some ⟨.RELEASED, "GET /a HTTP/1.1", some "GET /a HTTP/1.1", 0, some 4⟩ ∧
    (∃ c1 c2,
      (lookupFlow (pollerTick 4 (setInterceptMode sampleTwoPendingStore false)).flows "a").bind
        (·.completedAt) = some c1 ∧
      (lookupFlow (pollerTick 4 (setInterceptMode sampleTwoPendingStore false)).flows "b").bind
        (·.completedAt) = some c2 ∧
      c1 ≤ c2) := by
  constructor
  · exact (spec2proof_C3 sampleTwoPendingStore 4).1 "a"
      ⟨.PENDING_INTERCEPT, "GET /a HTTP/1.1", none, 0, none⟩ (by decide) rfl
  · exact (spec2proof_C3 sampleTwoPendingStore 4).2 "a" "b"
      ⟨.PENDING_INTERCEPT, "GET /a HTTP/1.1", none, 0, none⟩
      ⟨.PENDING_INTERCEPT, "GET /b HTTP/1.1", none, 1, none⟩
      (by decide) (by decide) rfl rfl (by decide)

/-- Every lifecycle rank is at most 2. -/
theorem rank_le_two (st : FlowState) : st.rank ≤ 2 := by
  cases st <;> decide

/-- One store operation never removes a flow, never decreases its lifecycle
rank, and leaves a terminal state unchanged. -/
theorem step_mono (s : Store) (step : Step) (fid : String) (r : FlowRecord)
    (h : lookupFlow s.flows fid = some r) :
    ∃ r2, lookupFlow (applyStep s step).flows fid = some r2 ∧
      r.state.rank ≤ r2.state.rank ∧
      (r.state.isTerminal = true → r2.state = r.state) := by
  cases step with
  | capture up fid2 req =>
      show ∃ r2, lookupFlow (onHeaders up s fid2 req).2.flows fid = some r2 ∧ _
      unfold onHeaders
      by_cases hup : up
      · simp only [hup, Bool.not_true, Bool.false_eq_true, if_false]
        cases hl : lookupFlow s.flows fid2 with
        | some x => exact ⟨r, h, le_refl _, fun _ => rfl⟩
        | none =>
            refine ⟨r, ?_, le_refl _, fun _ => rfl⟩
            simp only
            exact lookupFlow_append_left _ _ _ _ h
      · simp only [hup]
        exact ⟨r, h, le_refl _, fun _ => rfl⟩
  | forward fid2 e t =>
      show ∃ r2, lookupFlow (applyForward s fid2 e t).2.flows fid = some r2 ∧ _
      unfold applyForward
      cases hl : lookupFlow s.flows fid2 with
      | none => exact ⟨r, h, le_refl _, fun _ => rfl⟩
      | some rT =>
          by_cases hterm : rT.state.isTerminal
          · simp only [hterm, if_true]
            exact ⟨r, h, le_refl _, fun _ => rfl⟩
          · simp only [hterm, if_false, Bool.false_eq_true]
            have hset : ∀ rNew : FlowRecord, rNew.state = FlowState.RELEASED →
                ∃ r2, lookupFlow (setFlow s.flows fid2 rNew) fid = some r2 ∧
                  r.state.rank ≤ r2.state.rank ∧
                  (r.state.isTerminal = true → r2.state = r.state) := by
              intro rNew hNew
              by_cases hf : fid = fid2
              · subst hf
                rw [hl] at h
                obtain rfl : rT = r := by injection h
                refine ⟨rNew, ?_, ?_, ?_⟩
                · rw [lookupFlow_setFlow]
                  simp [hl]
                · rw [hNew]
                  exact rank_le_two _
                · intro hT
                  rw [hT] at hterm
                  simp at hterm
              · refine ⟨r, ?_, le_refl _, fun _ => rfl⟩
                rw [lookupFlow_setFlow]
                simp [hf, h]
            cases e with
            | none => exact hset _ rfl
            | some eb =>
                by_cases hv : validFraming eb
                · simp only [hv, if_true]
                  exact hset _ rfl
                · simp only [hv, if_false, Bool.false_eq_true]
                  exact ⟨r, h, le_refl _, fun _ => rfl⟩
  | drop fid2 t =>
      show ∃ r2, lookupFlow (applyDrop s fid2 t).2.flows fid = some r2 ∧ _
      unfold applyDrop
      cases hl : lookupFlow s.flows fid2 with
      | none => exact ⟨r, h, le_refl _, fun _ => rfl⟩
      | some rT =>
          by_cases hterm : rT.state.isTerminal
          · simp only [hterm, if_true]
            exact ⟨r, h, le_refl _, fun _ => rfl⟩
          · simp only [hterm, if_false, Bool.false_eq_true]
            by_cases hf : fid = fid2
            · subst hf
              rw [hl] at h
              obtain rfl : rT = r := by injection h
              refine ⟨{ rT with state := FlowState.DROPPED, completedAt := some t },
                ?_, ?_, ?_⟩
              · rw [lookupFlow_setFlow]
                simp [hl]
              · exact rank_le_two _
              · intro hT
                rw [hT] at hterm
                simp at hterm
            · refine ⟨r, ?_, le_refl _, fun _ => rfl⟩
              rw [lookupFlow_setFlow]
              simp [hf, h]
  | issue fid2 c =>
      refine ⟨r, ?_, le_refl _, fun _ => rfl⟩
      show lookupFlow (issueCommand s fid2 c).flows fid = some r
      unfold issueCommand
      cases lookupCmd s.commands fid2 with
      | none => exact h
      | some pc =>
          by_cases hc : pc.consumed <;> simp [hc, h]
  | consume fid2 =>
      refine ⟨r, ?_, le_refl _, fun _ => rfl⟩
      show lookupFlow (consumeCommand s fid2).2.flows fid = some r
      unfold consumeCommand
      cases lookupCmd s.commands fid2 with
      | none => exact h
      | some pc =>
          by_cases hc : pc.consumed <;> simp [hc, h]
  | setMode b =>
      exact ⟨r, h, le_refl _, fun _ => rfl⟩
  | tick t =>
      show ∃ r2, lookupFlow (pollerTick t s).flows fid = some r2 ∧ _
      unfold pollerTick
      by_cases hm : s.interceptMode
      · simp only [hm, if_true]
        exact ⟨r, h, le_refl _, fun _ => rfl⟩
      · simp only [hm, if_false, Bool.false_eq_true]
        refine ⟨releaseOne t r, ?_, ?_, ?_⟩
        · simp [lookupFlow_releaseFlows, h]
        · unfold releaseOne
          by_cases hp : r.state = .PENDING_INTERCEPT
          · simp [hp]
            decide
          · simp [hp]
        · intro hT
          unfold releaseOne
          by_cases hp : r.state = .PENDING_INTERCEPT
          · rw [hp] at hT
            simp [FlowState.isTerminal] at hT
          · simp [hp]

/-- A trace of store operations never removes a flow, never decreases its
lifecycle rank, and preserves a terminal state. -/
theorem run_mono (steps : List Step) (s : Store) (fid : String)
    (r : FlowRecord) (h : lookupFlow s.flows fid = some r) :
    ∃ r2, lookupFlow (runSteps s steps).flows fid = some r2 ∧
      r.state.rank ≤ r2.state.rank ∧
      (r.state.isTerminal = true → r2.state = r.state) := by
  induction steps generalizing s r with
  | nil => exact ⟨r, h, le_refl _, fun _ => rfl⟩
  | cons st rest ih =>
      obtain ⟨r1, h1, hrank1, hterm1⟩ := step_mono s st fid r h
      obtain ⟨r2, h2, hrank2, hterm2⟩ := ih (applyStep s st) r1 h1
      refine ⟨r2, h2, le_trans hrank1 hrank2, ?_⟩
      intro hT
      have e1 := hterm1 hT
      have : r1.state.isTerminal = true := by rw [e1]; exact hT
      rw [hterm2 this, e1]

/-- C2: the FlowRecord state only moves forward along
`CAPTURED → (PENDING_INTERCEPT) → RELEASED | DROPPED`. Over any trace of
store operations the lifecycle rank never decreases (no back-transitions),
a terminal state is preserved unchanged, and a flow_id enters the pending
set at most once: once its state stops being PENDING_INTERCEPT at some
point of the trace, no continuation of the trace ever shows it as
PENDING_INTERCEPT again. -/
theorem spec2proof_C2 (s : Store) (steps : List Step) (fid : String) :
    rankOf s fid ≤ rankOf (runSteps s steps) fid ∧
    (∀ st, stateOf s fid = some st → st.isTerminal = true →
      stateOf (runSteps s steps) fid = some st) ∧
    (∀ steps2, stateOf s fid = some .PENDING_INTERCEPT →
      stateOf (runSteps s steps) fid ≠ some .PENDING_INTERCEPT →
      stateOf (runSteps s (steps ++ steps2)) fid ≠ some .PENDING_INTERCEPT) := by
  refine ⟨?_, ?_, ?_⟩
  · unfold rankOf
    cases h : lookupFlow s.flows fid with
    | none => exact Nat.zero_le _
    | some r =>
        obtain ⟨r2, h2, hrank, _⟩ := run_mono steps s fid r h
        rw [h2]
        exact hrank
  · intro st hst hT
    unfold stateOf at hst
    cases h : lookupFlow s.flows fid with
    | none => rw [h] at hst; simp at hst
    | some r =>
        rw [h] at hst
        simp at hst
        obtain ⟨r2, h2, _, hterm⟩ := run_mono steps s fid r h
        unfold stateOf
        rw [h2]
        simp only [Option.map_some']
        subst hst
        exact congrArg some (hterm hT)
  · intro steps2 hpend hafter
    unfold stateOf at hpend
    cases h : lookupFlow s.flows fid with
    | none => rw [h] at hpend; simp at hpend
    | some r =>
        rw [h] at hpend
        simp at hpend
        obtain ⟨r1, h1, hrank1, _⟩ := run_mono steps s fid r h
        have hnp : r1.state ≠ .PENDING_INTERCEPT := by
          intro hc
          apply hafter
          unfold stateOf
          rw [h1]
          simp only [Option.map_some']
          rw [hc]
        have hT : r1.state.isTerminal = true := by
          rw [hpend] at hrank1
          cases hs1 : r1.state with
          | CAPTURED => rw [hs1] at hrank1; simp [FlowState.rank] at hrank1
          | PENDING_INTERCEPT => exact absurd hs1 hnp
          | RELEASED => rfl
          | DROPPED => rfl
        obtain ⟨r2, h2, _, hterm2⟩ := run_mono steps2 (runSteps s steps) fid r1 h1
        have hrun : runSteps s (steps ++ steps2) = runSteps (runSteps s steps) steps2 := by
          unfold runSteps
          exact List.foldl_append _ _ _ _
        rw [hrun]
        unfold stateOf
        rw [h2]
        simp only [Option.map_some']
        rw [hterm2 hT]
        intro hc
        simp at hc
        exact hnp hc

/-- C2 witness: a flow that was pending and is then forwarded never shows
as pending again after any further steps. -/
theorem spec2proof_C2_witness :
    stateOf (runSteps samplePendingStore
      ([Step.forward "f1" none 5] ++ [Step.tick 9])) "f1" ≠
      some .PENDING_INTERCEPT :=
  (spec2proof_C2 samplePendingStore [Step.forward "f1" none 5] "f1").2.2
    [Step.tick 9] (by decide) (by decide)

end Moxy
